import Mathlib

/-!
# Verification of the Afore JSON cleanup pipeline

Shallow embedding of the extraction / enrichment pipeline of the repository
`2025_10-Afore-JSON-cleanup` (files `cleanup_afore_json.py`, `enrich_with_usd.py`,
`fetch_banxico_fx.py`), together with theorems settling the spec claims.

Numeric cell values are modelled over `ℚ` extended with the non-finite Python
float values (`nan`, `inf`, `-inf`); strings are modelled as Lean strings with
explicit character-list processing mirroring the Python string operations used
by the source (`strip`, `replace`, `split`, `lower`, substring containment).
-/

namespace Afore

/-! ## Python string primitives -/

/-- Whitespace characters stripped by Python `str.strip()` (ASCII fragment). -/
def isPySpace (c : Char) : Bool :=
  c == ' ' || c == '\t' || c == '\n' || c == '\r' || c == Char.ofNat 11 || c == Char.ofNat 12

/-- `str.strip()` on a character list: drop whitespace from both ends. -/
def stripChars (l : List Char) : List Char :=
  ((l.dropWhile isPySpace).reverse.dropWhile isPySpace).reverse

/-- `str.strip()` on a string. -/
def pyStrip (s : String) : String := String.mk (stripChars s.data)

/-- ASCII lowercasing, as applied by case-insensitive matching. -/
def toLowerChars (l : List Char) : List Char := l.map Char.toLower

/-- `pat` begins the list `l`. -/
def beginsWith : List Char → List Char → Bool
  | [], _ => true
  | _ :: _, [] => false
  | p :: ps, c :: cs => p == c && beginsWith ps cs

/-- `pat` occurs as a contiguous sublist of `l`. -/
def occursIn (pat : List Char) : List Char → Bool
  | [] => pat.isEmpty
  | c :: rest => beginsWith pat (c :: rest) || occursIn pat rest

/-- Case-insensitive substring containment: models
`Series.str.contains(pat, case=False)` for regex-free patterns. -/
def containsCI (hay pat : String) : Bool :=
  occursIn (toLowerChars pat.data) (toLowerChars hay.data)

/-- Case-sensitive substring containment: models Python `pat in hay`. -/
def containsSub (hay pat : String) : Bool := occursIn pat.data hay.data

/-- Split a character list at every separator satisfying `p`
(mirrors Python `str.split(sep)`: keeps empty groups, `"" ↦ [""]`). -/
def splitOnPred (p : Char → Bool) : List Char → List (List Char)
  | [] => [[]]
  | c :: rest =>
    if p c then [] :: splitOnPred p rest
    else
      match splitOnPred p rest with
      | [] => [[c]]
      | g :: gs => (c :: g) :: gs

/-- Python `s.split(sep)` for a one-character separator. -/
def splitOnChar (sep : Char) (l : List Char) : List (List Char) :=
  splitOnPred (fun c => c == sep) l

/-- Numeric value of a decimal digit character. -/
def digitVal (c : Char) : Nat := c.toNat - 48

/-- Value of a list of decimal digit characters. -/
def natOfDigits (l : List Char) : Nat := l.foldl (fun acc c => 10 * acc + digitVal c) 0

/-- Remove the digit-group underscores Python numeric literals allow. -/
def dropUnderscores (l : List Char) : List Char := l.filter (fun c => c != '_')

/-- Tail of a digit group: digits, with single underscores only between digits. -/
def digitsUTail : List Char → Bool
  | [] => true
  | '_' :: rest =>
    match rest with
    | [] => false
    | c :: rest2 => c.isDigit && digitsUTail rest2
  | c :: rest => c.isDigit && digitsUTail rest

/-- A valid Python digit group: nonempty, digits with underscores between digits. -/
def digitsU (l : List Char) : Bool :=
  match l with
  | [] => false
  | c :: rest => c.isDigit && digitsUTail rest

/-! ## Python float values and `float(str)` -/

/-- A Python float as far as this pipeline observes it: an exact rational
(decimal arithmetic is modelled exactly, not with binary rounding), or one of
the non-finite values. -/
inductive MVal where
  | num (q : ℚ)
  | nan
  | inf
  | ninf
deriving DecidableEq

/-- Negation of a Python float (`-nan` is `nan`). -/
def MVal.neg : MVal → MVal
  | .num q => .num (-q)
  | .nan => .nan
  | .inf => .ninf
  | .ninf => .inf

/-- Multiplication by the fixed unit scale 1000 (`inf`/`nan` absorb). -/
def MVal.mul1000 : MVal → MVal
  | .num q => .num (q * mkRat 1000 1)
  | .nan => .nan
  | .inf => .inf
  | .ninf => .ninf

/-- A natural number as a rational (via `mkRat`, which the kernel evaluates). -/
def qOfNat (n : Nat) : ℚ := mkRat (Int.ofNat n) 1

/-- `10 ^ n` as a rational. -/
def pow10 (n : Nat) : ℚ := qOfNat (10 ^ n)

/-- Value of a fractional digit group `fp` (read after the decimal point). -/
def fracVal (fp : List Char) : ℚ :=
  mkRat (Int.ofNat (natOfDigits (dropUnderscores fp))) (10 ^ (dropUnderscores fp).length)

/-- Parse the mantissa part (`123`, `123.`, `.5`, `123.45`) of a float literal. -/
def parseMantissa (l : List Char) : Option ℚ :=
  match splitOnChar '.' l with
  | [ip] => if digitsU ip then some (qOfNat (natOfDigits (dropUnderscores ip))) else none
  | [ip, fp] =>
    if ip.isEmpty && digitsU fp then some (fracVal fp)
    else if fp.isEmpty && digitsU ip then some (qOfNat (natOfDigits (dropUnderscores ip)))
    else if digitsU ip && digitsU fp then
      some (qOfNat (natOfDigits (dropUnderscores ip)) + fracVal fp)
    else none
  | _ => none

/-- Parse an optionally signed integer (used for the exponent of a float literal). -/
def parseSignedInt (l : List Char) : Option Int :=
  match l with
  | '+' :: rest => if digitsU rest then some ((natOfDigits (dropUnderscores rest) : Int)) else none
  | '-' :: rest => if digitsU rest then some (-((natOfDigits (dropUnderscores rest) : Int))) else none
  | _ => if digitsU l then some ((natOfDigits (dropUnderscores l) : Int)) else none

/-- Scale a rational by a signed power of ten. -/
def applyExp (q : ℚ) (e : Int) : ℚ :=
  match e with
  | .ofNat n => q * pow10 n
  | .negSucc n => q / pow10 (n + 1)

/-- Parse an unsigned Python float literal body: the keywords `nan` / `inf` /
`infinity` (case-insensitive) or a decimal literal with optional exponent. -/
def parseUnsigned (l : List Char) : Option MVal :=
  let low := toLowerChars l
  if low = "nan".data then some .nan
  else if low = "inf".data || low = "infinity".data then some .inf
  else
    match splitOnPred (fun c => c == 'e' || c == 'E') l with
    | [m] => (parseMantissa m).map MVal.num
    | [m, ex] =>
      match parseMantissa m, parseSignedInt ex with
      | some q, some e => some (.num (applyExp q e))
      | _, _ => none
    | _ => none

/-- Model of Python `float(s)`: strip whitespace, optional sign, then the
unsigned literal; `none` models the `ValueError` branch. -/
def pyFloat (s : String) : Option MVal :=
  match stripChars s.data with
  | '+' :: rest => parseUnsigned rest
  | '-' :: rest => (parseUnsigned rest).map MVal.neg
  | l => parseUnsigned l

/-! ## Value Normalizer (`cleanup_afore_json.py` lines 145–149) -/

/-- The placeholder tokens the source compares against after cleaning:
`["N/A", "-", "", "nan", "None"]`. -/
def placeholderTokens : List String := ["N/A", "-", "", "nan", "None"]

/-- `str(val).replace(",", "").strip()`. -/
def cleanVal (s : String) : String :=
  pyStrip (String.mk (s.data.filter (fun c => c != ',')))

/-- The Value Normalizer on a textual cell:
`float(val_str) * 1000 if val_str not in [...] else 0.0`, with any parse
failure caught and mapped to `0.0`. -/
def normalizeStr (s : String) : MVal :=
  let t := cleanVal s
  if t ∈ placeholderTokens then .num 0
  else
    match pyFloat t with
    | some v => v.mul1000
    | none => .num 0

/-- A raw spreadsheet cell as pandas hands it to the script: a string, a
finite number, or a missing value (`NaN`). -/
inductive Cell where
  | str (s : String)
  | num (q : ℚ)
  | nan
deriving DecidableEq

/-- The Value Normalizer on a cell. For a string cell this is the string path.
A missing cell stringifies to `"nan"`, a placeholder, hence `0`. A finite
numeric cell `v` stringifies to a decimal literal that `float` parses back to
`v` (Python `repr` round-trips floats), so the result is `v * 1000`. -/
def normalizeCell : Cell → MVal
  | .str s => normalizeStr s
  | .nan => .num 0
  | .num q => .num (q * mkRat 1000 1)

/-! ## Date Resolver (`cleanup_afore_json.py` lines 115–142) -/

/-- A reporting period: the canonical (year, month) join key. -/
structure Period where
  year : Nat
  month : Nat
deriving DecidableEq

/-- Outcome of resolving one column header: a period, the "not a date"
sentinel (`NaT`, skipped by the caller), or an uncaught Python exception. -/
inductive DateResult where
  | period (p : Period)
  | notDate
  | pyError
deriving DecidableEq

/-- The fixed 12-entry Spanish month-abbreviation table of the source
(the dict maps to the month strings "01"–"12"; modelled as month numbers). -/
def spanishMonths : List (String × Nat) :=
  [("Ene", 1), ("Feb", 2), ("Mar", 3), ("Abr", 4),
   ("May", 5), ("Jun", 6), ("Jul", 7), ("Ago", 8),
   ("Sep", 9), ("Oct", 10), ("Nov", 11), ("Dic", 12)]

/-- Dictionary lookup `spanish_months[parts[0]]`. -/
def spanishMonthNum (s : String) : Option Nat :=
  (spanishMonths.find? (fun p => p.1 == s)).map (fun p => p.2)

/-- Gregorian leap year. -/
def leapYear (y : Nat) : Bool := (y % 4 == 0 && y % 100 != 0) || (y % 400 == 0)

/-- Days in a month. -/
def daysInMonth (y m : Nat) : Nat :=
  if m = 2 then (if leapYear y then 29 else 28)
  else if m = 4 ∨ m = 6 ∨ m = 9 ∨ m = 11 then 30
  else 31

/-- Lexicographic encoding of a calendar date for range comparison
(valid for `m, d ≤ 99`). -/
def dateCode (y m d : Nat) : Nat := (y * 100 + m) * 100 + d

/-- The date lies inside the representable `pd.Timestamp` range
(1677-09-21 00:12:43 to 2262-04-11 23:47:16; a date-only value is in range
iff it lies in 1677-09-22 .. 2262-04-11). -/
def tsInBoundsDay (y m d : Nat) : Bool :=
  decide (dateCode 1677 9 22 ≤ dateCode y m d ∧ dateCode y m d ≤ dateCode 2262 4 11)

/-- Construct a period from year/month/day components, validating month range,
day range and the `pd.Timestamp` bounds; `none` models `NaT` (or, at the
`pd.Timestamp` constructor, the raised `OutOfBoundsDatetime`). -/
def mkPeriod (y m d : Nat) : Option Period :=
  if (1 ≤ m ∧ m ≤ 12 ∧ 1 ≤ d ∧ d ≤ daysInMonth y m) ∧ tsInBoundsDay y m d = true then
    some ⟨y, m⟩
  else none

/-- `pd.Timestamp(f"{year}-{month}-01")` for a 4-character year string from the
Spanish-abbreviation branch: parses when the string is all digits and the date
is representable, and otherwise raises (`ValueError` / `OutOfBoundsDatetime`) —
the source checks only the length of the year part, not that it is numeric. -/
def timestampYM (yearStr : List Char) (m : Nat) : DateResult :=
  if yearStr.all (fun c => c.isDigit) then
    match mkPeriod (natOfDigits yearStr) m 1 with
    | some p => .period p
    | none => .pyError
  else .pyError

/-- English month names recognized by the generic parser (dateutil). -/
def englishMonths : List (String × Nat) :=
  [("jan", 1), ("january", 1), ("feb", 2), ("february", 2), ("mar", 3), ("march", 3),
   ("apr", 4), ("april", 4), ("may", 5), ("jun", 6), ("june", 6), ("jul", 7), ("july", 7),
   ("aug", 8), ("august", 8), ("sep", 9), ("sept", 9), ("september", 9), ("oct", 10),
   ("october", 10), ("nov", 11), ("november", 11), ("dec", 12), ("december", 12)]

/-- Case-insensitive English month-name lookup. -/
def englishMonthNum (l : List Char) : Option Nat :=
  (englishMonths.find? (fun p => p.1.data == toLowerChars l)).map (fun p => p.2)

/-- One or two decimal digits. -/
def digits2 (l : List Char) : Bool :=
  (l.length = 1 || l.length = 2) && l.all (fun c => c.isDigit)

/-- Exactly four decimal digits. -/
def digits4 (l : List Char) : Bool :=
  l.length = 4 && l.all (fun c => c.isDigit)

/-- dateutil's resolution of two ambiguous numeric components with the default
`dayfirst=False`: the first component is the month when it can be (`≤ 12`),
otherwise the components are swapped. -/
def mdSwap (y a b : Nat) : Option Period :=
  if a ≤ 12 then mkPeriod y a b else mkPeriod y b a

/-- Model of `pd.to_datetime(s, errors="coerce")` (default `dayfirst=False`,
i.e. month before day) on the header formats this pipeline meets: ISO dates
with optional time, hyphen/slash numeric dates, English month names, bare
years and `YYYYMMDD`. Other inputs coerce to `NaT` (`none`); the fragment is
conservative but month-first throughout, as pandas documents. -/
def genericParseChars (l : List Char) : Option Period :=
  match splitOnChar '-' l with
  | [a, b] =>
    if digits4 a && digits2 b then mkPeriod (natOfDigits a) (natOfDigits b) 1
    else
      match englishMonthNum a, englishMonthNum b with
      | some m, _ => if digits4 b then mkPeriod (natOfDigits b) m 1 else none
      | none, some m => if digits4 a then mkPeriod (natOfDigits a) m 1 else none
      | none, none => none
  | [a, b, c] =>
    if digits4 a && digits2 b then
      match splitOnChar ' ' c with
      | dtok :: _ => if digits2 dtok then mkPeriod (natOfDigits a) (natOfDigits b) (natOfDigits dtok) else none
      | [] => none
    else if digits2 a && digits2 b && digits4 c then
      mdSwap (natOfDigits c) (natOfDigits a) (natOfDigits b)
    else if digits2 a && digits4 c then
      match englishMonthNum b with
      | some m => mkPeriod (natOfDigits c) m (natOfDigits a)
      | none => none
    else none
  | [_] =>
    match splitOnChar '/' l with
    | [a, b] =>
      if digits2 a && digits4 b then mkPeriod (natOfDigits b) (natOfDigits a) 1
      else if digits4 a && digits2 b then mkPeriod (natOfDigits a) (natOfDigits b) 1
      else none
    | [a, b, c] =>
      if digits4 a && digits2 b && digits2 c then
        mkPeriod (natOfDigits a) (natOfDigits b) (natOfDigits c)
      else if digits2 a && digits2 b && digits4 c then
        mdSwap (natOfDigits c) (natOfDigits a) (natOfDigits b)
      else none
    | [d] =>
      if digits4 d then mkPeriod (natOfDigits d) 1 1
      else if d.length = 8 && d.all (fun c => c.isDigit) then
        mkPeriod (natOfDigits (d.take 4)) (natOfDigits ((d.drop 4).take 2)) (natOfDigits (d.drop 6))
      else none
    | _ => none
  | _ => none

/-- `pd.to_datetime(s, errors="coerce")` on a string. -/
def genericParse (s : String) : Option Period := genericParseChars (stripChars s.data)

/-- Lift the coercing parse into a `DateResult` (`NaT` becomes the sentinel). -/
def ofGeneric : Option Period → DateResult
  | some p => .period p
  | none => .notDate

/-- The Date Resolver core on an already-stripped header, mirroring lines
126–142: exact 2-part split on `"-"`, Spanish-table left part with
4-character right part goes to the `pd.Timestamp` constructor, everything
else to the generic coercing parse. -/
def resolveChars (cs : List Char) : DateResult :=
  match splitOnChar '-' cs with
  | [p0, p1] =>
    if cs.contains '-' then
      match spanishMonthNum (String.mk p0) with
      | some m =>
        if p1.length = 4 then timestampYM p1 m
        else ofGeneric (genericParseChars cs)
      | none => ofGeneric (genericParseChars cs)
    else ofGeneric (genericParseChars cs)
  | _ => ofGeneric (genericParseChars cs)

/-- The Date Resolver on a header string (`col_str = str(col).strip()`). -/
def resolveStr (col : String) : DateResult :=
  resolveChars (stripChars col.data)

/-- An already-structured date object (`pd.Timestamp`) among column headers. -/
structure PdTimestamp where
  year : Nat
  month : Nat
  day : Nat
deriving DecidableEq

/-- A raw column-header value: structured date or string. -/
inductive ColValue where
  | ts (t : PdTimestamp)
  | str (s : String)

/-- The full Date Resolver, line 120: an `isinstance(col, pd.Timestamp)` value
is used directly, a string goes through `resolveStr`. -/
def resolveCol : ColValue → DateResult
  | .ts t => .period ⟨t.year, t.month⟩
  | .str s => resolveStr s

/-! ## Concept Locator and Block Extractor (`cleanup_afore_json.py` lines 83–160) -/

/-- `str(cell)` as pandas `astype(str)` produces it: strings unchanged,
missing values become `"nan"`; a float with integral value renders as
`"<n>.0"` (other rationals use the default rendering — no concept search term
can occur in a numeric rendering either way). -/
def pyStrCell : Cell → String
  | .str s => s
  | .nan => "nan"
  | .num q => if q.den = 1 then toString q.num ++ ".0" else toString q

/-- `df.iloc[row, k]`: cell at a column position (missing positions are `NaN`). -/
def cellAt (row : List Cell) (k : Nat) : Cell := row.getD k .nan

/-- One row of the label-column scan:
`df.iloc[:, 1].astype(str).str.contains(search, case=False, na=False)`. -/
def rowMatches (row : List Cell) (search : String) : Bool :=
  containsCI (pyStrCell (cellAt row 1)) search

/-- The Concept Locator: index of the first row whose label-column value
contains the search term case-insensitively (`concept_idx.index[0]`), or the
not-found signal (`concept_idx.empty`). -/
def findRow (rows : List (List Cell)) (search : String) : Option Nat :=
  rows.findIdx? (fun r => rowMatches r search)

/-- The corruption-tolerant search term chosen per concept (lines 89–96). -/
def conceptSearch (c : String) : String :=
  if containsSub c "Fiduciarios" then "Fiduciarios"
  else if containsSub c "Fondos Mutuos" then "Fondos Mutuos"
  else if containsSub c "Tercerizadas" then "Tercerizadas"
  else c

/-- The four concepts extracted from every report. -/
def CONCEPTS : List String :=
  ["Total de Activo",
   "Inversiones Tercerizadas",
   "Inversion en Titulos Fiduciarios",
   "Inversion en Fondos Mutuos"]

/-- `afore_block.iloc[:, 1].fillna("").str.strip()` on one label cell: a
missing label becomes `""` then stays `""`; a string label is stripped; a
non-string label is turned into `NaN` by the `.str` accessor (`none`). -/
def labelOf (c : Cell) : Option String :=
  match c with
  | .str s => some (pyStrip s)
  | .nan => some ""
  | .num _ => none

/-- `if not afore or afore == "nan": continue` — note that a `NaN` label
(Python truthy, and not equal to the string `"nan"`) is NOT skipped. -/
def labelSkip (l : Option String) : Bool :=
  match l with
  | some s => s == "" || s == "nan"
  | none => false

/-- One extracted holding record, as serialized to the output JSON
(`afore = none` models a `NaN` entity label). -/
structure XRecord where
  afore : Option String
  siefore : String
  concept : String
  periodYear : String
  periodMonth : String
  valueMXN : MVal
deriving DecidableEq

/-- Python `str.zfill(2)` for the non-negative month strings used here. -/
def zfill2 (s : String) : String :=
  if 2 ≤ s.length then s else String.mk (List.replicate (2 - s.length) '0' ++ s.data)

/-- Build the record appended at lines 151–158. -/
def mkXRecord (lab : Option String) (sief conc : String) (p : Period) (v : Cell) : XRecord :=
  ⟨lab, sief, conc, toString p.year, zfill2 (toString p.month), normalizeCell v⟩

/-- The inner loop over `(col, val)` pairs of one entity row: resolve the
header, skip `NaT`, emit a record otherwise; a raised date exception aborts
the whole extraction (`.error`). -/
def processPairs (lab : Option String) (sief conc : String) :
    List (String × Cell) → Except Unit (List XRecord)
  | [] => .ok []
  | (h, c) :: rest =>
    match resolveStr h with
    | .pyError => .error ()
    | .notDate => processPairs lab sief conc rest
    | .period p =>
      match processPairs lab sief conc rest with
      | .error e => .error e
      | .ok rs => .ok (mkXRecord lab sief conc p c :: rs)

/-- A report sheet after `pd.read_excel(..., header=HEADER_ROW)` and the
stringification of its columns: header strings plus data rows. -/
structure Sheet where
  headers : List String
  rows : List (List Cell)

/-- One entity row of a concept block: skip on blank/null-marker label,
otherwise process the value columns from `FIRST_VALUE_COL = 4` on. -/
def entityRow (headers : List String) (sief conc : String) (row : List Cell) :
    Except Unit (List XRecord) :=
  if labelSkip (labelOf (cellAt row 1)) then .ok []
  else processPairs (labelOf (cellAt row 1)) sief conc ((headers.drop 4).zip (row.drop 4))

/-- The entity rows of a block, in order, with results concatenated. -/
def processRows (headers : List String) (sief conc : String) :
    List (List Cell) → Except Unit (List XRecord)
  | [] => .ok []
  | r :: rest =>
    match entityRow headers sief conc r with
    | .error e => .error e
    | .ok rs1 =>
      match processRows headers sief conc rest with
      | .error e => .error e
      | .ok rs2 => .ok (rs1 ++ rs2)

/-- The Block Extractor on a located concept row: the `NUM_AFORES = 10` rows
`df.iloc[concept_row + 1 : concept_row + 1 + 10]`. -/
def blockRecords (s : Sheet) (sief conc : String) (cidx : Nat) :
    Except Unit (List XRecord) :=
  processRows s.headers sief conc ((s.rows.drop (cidx + 1)).take 10)

/-- One concept of a report: locate, and on not-found skip with zero records. -/
def conceptRecords (s : Sheet) (sief conc : String) : Except Unit (List XRecord) :=
  match findRow s.rows (conceptSearch conc) with
  | none => .ok []
  | some i => blockRecords s sief conc i

/-- Fold of the per-concept extraction over a concept list. -/
def processConcepts (s : Sheet) (sief : String) :
    List String → Except Unit (List XRecord)
  | [] => .ok []
  | c :: rest =>
    match conceptRecords s sief c with
    | .error e => .error e
    | .ok rs1 =>
      match processConcepts s sief rest with
      | .error e => .error e
      | .ok rs2 => .ok (rs1 ++ rs2)

/-- `extract_siefore_data` on an already-read sheet. -/
def extractSiefore (s : Sheet) (sief : String) : Except Unit (List XRecord) :=
  processConcepts s sief CONCEPTS

/-! ## Report Extraction Orchestrator (`cleanup_afore_json.py` lines 163–218) -/

/-- The state of one report file as the orchestrator sees it: absent, present
but unreadable (`pd.read_excel` raises — caught at lines 77–81), or readable. -/
inductive FileState where
  | missing
  | present (r : Except Unit Sheet)

/-- One row of the per-report summary (`file_summary`). -/
structure SummaryEntry where
  reportNumber : Nat
  siefore : String
  status : String
  recordsExtracted : Nat
deriving DecidableEq

/-- The fixed report-number to Siefore mapping, in the sorted order in which
`main` iterates it. -/
def SIEFORE_MAP : List (Nat × String) :=
  [(16, "Pensiones"), (17, "Inicial"), (18, "55-59"), (19, "60-64"), (20, "65-69"),
   (21, "70-74"), (22, "75-79"), (23, "80-84"), (24, "85-89"), (25, "90-94"), (26, "95-99")]

/-- The orchestrator loop over a report list: a missing file is recorded as
`"File Not Found"` with zero records and processing continues; an unreadable
file is caught inside extraction, yields an empty record set, and is recorded
as `"Success"` with zero records; an uncaught extraction exception (a raised
date parse) aborts the whole batch. -/
def processReportList (env : Nat → FileState) :
    List (Nat × String) → Except Unit (List SummaryEntry × List XRecord)
  | [] => .ok ([], [])
  | (n, sief) :: rest =>
    match env n with
    | .missing =>
      match processReportList env rest with
      | .error e => .error e
      | .ok (su, recs) => .ok (⟨n, sief, "File Not Found", 0⟩ :: su, recs)
    | .present (.error _) =>
      match processReportList env rest with
      | .error e => .error e
      | .ok (su, recs) => .ok (⟨n, sief, "Success", 0⟩ :: su, recs)
    | .present (.ok sheet) =>
      match extractSiefore sheet sief with
      | .error e => .error e
      | .ok mine =>
        match processReportList env rest with
        | .error e => .error e
        | .ok (su, recs) => .ok (⟨n, sief, "Success", mine.length⟩ :: su, mine ++ recs)

/-- `main`: process every report of the fixed mapping. -/
def runPipeline (env : Nat → FileState) : Except Unit (List SummaryEntry × List XRecord) :=
  processReportList env SIEFORE_MAP

/-- An environment with report 16 present but unreadable and all other
reports missing. -/
def env0 : Nat → FileState := fun n => if n = 16 then .present (.error ()) else .missing

/-- What the code records per report: a summary entry aligned with its
mapping entry, with status `"Success"` or `"File Not Found"`; a missing file
yields `"File Not Found"` with zero records, an unreadable file yields
`"Success"` with zero records. -/
def reportEntryOK (env : Nat → FileState) (pr : Nat × String) (e : SummaryEntry) : Prop :=
  e.reportNumber = pr.1 ∧ e.siefore = pr.2
  ∧ (e.status = "Success" ∨ e.status = "File Not Found")
  ∧ (env pr.1 = .missing → e.status = "File Not Found" ∧ e.recordsExtracted = 0)
  ∧ (env pr.1 = .present (.error ()) → e.status = "Success" ∧ e.recordsExtracted = 0)

/-! ## Enrichment Merger (`enrich_with_usd.py` lines 81–150) -/

/-- One record of the loaded Afore JSON database (period components are the
strings the extraction stage serialized; the merge joins on string equality). -/
structure AforeRow where
  afore : String
  siefore : String
  concept : String
  periodYear : String
  periodMonth : String
  valueMXN : ℚ
deriving DecidableEq

/-- One record of the loaded FX JSON (`PeriodYear`, `PeriodMonth`, `FX_EOM`). -/
structure FXRow where
  periodYear : String
  periodMonth : String
  fx : ℚ
deriving DecidableEq

/-- Join condition of `afore_df.merge(fx_df, on=["PeriodYear", "PeriodMonth"])`. -/
def fxKeyMatch (a : AforeRow) (f : FXRow) : Bool :=
  f.periodYear == a.periodYear && f.periodMonth == a.periodMonth

/-- A merged row: the base record plus the attached `FX_EOM` (absent = `NaN`). -/
structure MergedRow where
  base : AforeRow
  fx : Option ℚ
deriving DecidableEq

/-- `merge_fx_data`: a pandas left merge. For each left row in order: one
output row per matching right row (in right order), or a single row with
`FX_EOM = NaN` when nothing matches. No validation is performed. -/
def merge_fx_data (A : List AforeRow) (F : List FXRow) : List MergedRow :=
  A.flatMap (fun a =>
    let ms := F.filter (fun f => fxKeyMatch a f)
    if ms.isEmpty then [⟨a, none⟩] else ms.map (fun f => ⟨a, some f.fx⟩))

/-- An enriched output record (`valueUSD` absent models `NaN`). -/
structure EnrichedRow where
  base : AforeRow
  fx : Option ℚ
  valueUSD : Option ℚ
deriving DecidableEq

/-- `calculate_usd_values`: `df["valueUSD"] = df["valueMXN"] / df["FX_EOM"]`
(division by the missing value `NaN` yields `NaN`). -/
def calculate_usd_values (l : List MergedRow) : List EnrichedRow :=
  l.map (fun m => ⟨m.base, m.fx, m.fx.map (fun r => m.base.valueMXN / r)⟩)

/-- The Enrichment Merger pipeline: merge, then derive USD values. -/
def enrich (A : List AforeRow) (F : List FXRow) : List EnrichedRow :=
  calculate_usd_values (merge_fx_data A F)

/-! ## Banxico FX processing (`fetch_banxico_fx.py` lines 99–182) -/

/-- One raw data point of the Banxico API response. -/
structure BanxicoRaw where
  fecha : String
  dato : String
deriving DecidableEq

/-- A parsed calendar date. -/
structure PDate where
  y : Nat
  m : Nat
  d : Nat
deriving DecidableEq

/-- `pd.to_datetime(s, format="%d/%m/%Y", errors="coerce")`: strict
day/month/year with a 4-digit year, invalid dates and out-of-range
timestamps coerce to `NaT`. -/
def parseFechaDMY (s : String) : Option PDate :=
  match splitOnChar '/' (stripChars s.data) with
  | [d, m, y] =>
    if digits2 d && digits2 m && digits4 y then
      let dn := natOfDigits d
      let mn := natOfDigits m
      let yn := natOfDigits y
      if (1 ≤ mn ∧ mn ≤ 12 ∧ 1 ≤ dn ∧ dn ≤ daysInMonth yn mn) ∧ tsInBoundsDay yn mn dn = true
      then some ⟨yn, mn, dn⟩
      else none
    else none
  | _ => none

/-- `pd.to_numeric(s, errors="coerce")` restricted to finite decimal values. -/
def toNumeric (s : String) : Option ℚ :=
  match pyFloat s with
  | some (.num q) => some q
  | _ => none

/-- A valid (date, rate) observation after the `dropna` of `process_data`. -/
structure FXObs where
  date : PDate
  q : ℚ
deriving DecidableEq

/-- Parse and drop invalid rows (lines 112–117). -/
def validObs (rows : List BanxicoRaw) : List FXObs :=
  rows.filterMap (fun r =>
    match parseFechaDMY r.fecha, toNumeric r.dato with
    | some d, some q => some ⟨d, q⟩
    | _, _ => none)

/-- Chronological order on dates via the lexicographic encoding. -/
def dateLE (a b : PDate) : Bool :=
  decide (dateCode a.y a.m a.d ≤ dateCode b.y b.m b.d)

/-- The `(PeriodYear, PeriodMonth)` string pair of an observation
(lines 123–124: `astype(str)` and zero-filled month). -/
def fxKey (d : PDate) : String × String := (toString d.y, zfill2 (toString d.m))

/-- `groupby([...]).tail(1)` on a frame in a given row order: keep the last
row of each key group. -/
def keepLastByKey : List FXObs → List FXObs
  | [] => []
  | o :: rest =>
    if rest.any (fun p => fxKey p.date == fxKey o.date) then keepLastByKey rest
    else o :: keepLastByKey rest

/-- Lexicographic string order (pandas string sort). -/
def charsLE : List Char → List Char → Bool
  | [], _ => true
  | _ :: _, [] => false
  | a :: as, b :: bs =>
    if a.toNat < b.toNat then true
    else if b.toNat < a.toNat then false
    else charsLE as bs

/-- String comparison used by the final `sort_values(["PeriodYear", "PeriodMonth"])`. -/
def strLE (a b : String) : Bool := charsLE a.data b.data

/-- Two-column sort key order: primary `PeriodYear`, secondary `PeriodMonth`. -/
def keyLE (a b : String × String) : Bool :=
  if a.1 == b.1 then strLE a.2 b.2 else strLE a.1 b.1

/-- `process_data`: parse, drop invalid, sort chronologically, keep the last
observation per month, and emit `(PeriodYear, PeriodMonth, FX_EOM)` rows
sorted by period. -/
def process_data (rows : List BanxicoRaw) : List FXRow :=
  let sorted := (validObs rows).mergeSort (fun a b => dateLE a.date b.date)
  let eom := keepLastByKey sorted
  let out := eom.map (fun o => FXRow.mk (fxKey o.date).1 (fxKey o.date).2 o.q)
  out.mergeSort (fun a b => keyLE (a.periodYear, a.periodMonth) (b.periodYear, b.periodMonth))

/-- One row of the processed FX frame as `validate_data` sees it
(`fx = none` models a null `FX_EOM`). -/
structure FXRowN where
  periodYear : String
  periodMonth : String
  fx : Option ℚ
deriving DecidableEq

/-- The processed FX frame: its column list and its rows. -/
structure FXFrame where
  cols : List String
  rows : List FXRowN

/-- The columns `validate_data` requires. -/
def requiredFXCols : List String := ["PeriodYear", "PeriodMonth", "FX_EOM"]

/-- `df.duplicated(subset=[...], keep=False).any()`. -/
def hasDupKeys : List (String × String) → Bool
  | [] => false
  | k :: rest => rest.contains k || hasDupKeys rest

/-- `validate_data`: required columns, no null rate, all rates in `[1, 30]`,
no duplicate `(PeriodYear, PeriodMonth)`; raises `ValueError` otherwise. -/
def validate_data (f : FXFrame) : Except String Unit :=
  if ¬ (requiredFXCols.all (fun c => f.cols.contains c)) then
    .error "Missing required columns"
  else if f.rows.any (fun r => r.fx.isNone) then
    .error "FX_EOM column contains null values"
  else if (f.rows.filterMap (fun r => r.fx)).any (fun q => decide (q < 1))
       || (f.rows.filterMap (fun r => r.fx)).any (fun q => decide (30 < q)) then
    .error "FX rates outside expected range"
  else if hasDupKeys (f.rows.map (fun r => (r.periodYear, r.periodMonth))) then
    .error "Duplicate periods found"
  else .ok ()

/-! ## General lemmas: stripping, month bounds -/

/-- The head surviving `dropWhile p` does not satisfy `p`. -/
lemma dropWhile_head_not (p : Char → Bool) (l : List Char) :
    ∀ c, (l.dropWhile p).head? = some c → p c = false := by
  induction l with
  | nil => intro c h; simp at h
  | cons a l ih =>
    intro c h
    rw [List.dropWhile_cons] at h
    split at h
    · exact ih c h
    · rename_i hpa
      simp only [List.head?_cons, Option.some.injEq] at h
      subst h
      simpa using hpa

/-- `dropWhile` is the identity when the head does not satisfy `p`. -/
lemma dropWhile_eq_self_of_head (p : Char → Bool) (l : List Char)
    (h : ∀ c, l.head? = some c → p c = false) : l.dropWhile p = l := by
  cases l with
  | nil => rfl
  | cons a l =>
    rw [List.dropWhile_cons, if_neg]
    simp [h a rfl]

/-- A stripped list does not end in whitespace. -/
lemma stripChars_getLast_not (l : List Char) :
    ∀ c, (stripChars l).getLast? = some c → isPySpace c = false := by
  intro c h
  unfold stripChars at h
  rw [List.getLast?_reverse] at h
  exact dropWhile_head_not _ _ c h

/-- A stripped list does not begin with whitespace. -/
lemma stripChars_head_not (l : List Char) :
    ∀ c, (stripChars l).head? = some c → isPySpace c = false := by
  intro c h
  unfold stripChars at h
  rw [List.head?_reverse] at h
  by_cases hemp : ((l.dropWhile isPySpace).reverse).dropWhile isPySpace = []
  · rw [hemp] at h; simp at h
  · obtain ⟨t, ht⟩ := List.dropWhile_suffix (l := (l.dropWhile isPySpace).reverse) isPySpace
    have h2 : (((l.dropWhile isPySpace).reverse).dropWhile isPySpace).getLast?
        = ((l.dropWhile isPySpace).reverse).getLast? := by
      conv_rhs => rw [← ht]
      exact (List.getLast?_append_of_ne_nil _ hemp).symm
    rw [h2, List.getLast?_reverse] at h
    exact dropWhile_head_not _ _ c h

/-- Stripping is the identity on a list with no whitespace at either end. -/
lemma stripChars_eq_self (l : List Char)
    (h1 : ∀ c, l.head? = some c → isPySpace c = false)
    (h2 : ∀ c, l.getLast? = some c → isPySpace c = false) :
    stripChars l = l := by
  unfold stripChars
  rw [dropWhile_eq_self_of_head _ _ h1,
      dropWhile_eq_self_of_head _ _ (fun c hc => h2 c (by rwa [List.head?_reverse] at hc))]
  exact List.reverse_reverse l

/-- Stripping is idempotent. -/
lemma stripChars_idem (l : List Char) : stripChars (stripChars l) = stripChars l :=
  stripChars_eq_self _ (stripChars_head_not l) (stripChars_getLast_not l)

/-- `str.strip()` is idempotent. -/
lemma pyStrip_idem (s : String) : pyStrip (pyStrip s) = pyStrip s := by
  unfold pyStrip
  rw [show (String.mk (stripChars s.data)).data = stripChars s.data from rfl, stripChars_idem]

/-- A period built by `mkPeriod` carries the given components, with the month
in range 1–12. -/
lemma mkPeriod_month (y m d : Nat) (p : Period) (h : mkPeriod y m d = some p) :
    1 ≤ p.month ∧ p.month ≤ 12 ∧ p.year = y ∧ p.month = m := by
  unfold mkPeriod at h
  split at h
  · rename_i hc
    simp only [Option.some.injEq] at h
    subst h
    exact ⟨hc.1.1, hc.1.2.1, rfl, rfl⟩
  · simp at h

/-- `mdSwap` yields months in range 1–12. -/
lemma mdSwap_month (y a b : Nat) (p : Period) (h : mdSwap y a b = some p) :
    1 ≤ p.month ∧ p.month ≤ 12 := by
  unfold mdSwap at h
  split at h <;> exact ⟨(mkPeriod_month _ _ _ _ h).1, (mkPeriod_month _ _ _ _ h).2.1⟩

/-- The generic parse yields months in range 1–12. -/
lemma genericParseChars_month (l : List Char) (p : Period)
    (h : genericParseChars l = some p) : 1 ≤ p.month ∧ p.month ≤ 12 := by
  unfold genericParseChars at h
  repeat' split at h
  all_goals first
    | simp at h
    | exact ⟨(mkPeriod_month _ _ _ _ h).1, (mkPeriod_month _ _ _ _ h).2.1⟩
    | exact mdSwap_month _ _ _ _ h

/-- The sentinel lift preserves the month range. -/
lemma ofGeneric_month (l : List Char) (p : Period)
    (h : ofGeneric (genericParseChars l) = .period p) : 1 ≤ p.month ∧ p.month ≤ 12 := by
  cases hg : genericParseChars l with
  | none => rw [hg] at h; simp [ofGeneric] at h
  | some q =>
    rw [hg] at h
    simp only [ofGeneric, DateResult.period.injEq] at h
    subst h
    exact genericParseChars_month l q hg

/-- The Spanish-abbreviation `pd.Timestamp` branch yields months in 1–12. -/
lemma timestampYM_month (ys : List Char) (m : Nat) (p : Period)
    (h : timestampYM ys m = .period p) : 1 ≤ p.month ∧ p.month ≤ 12 := by
  unfold timestampYM at h
  split at h
  · cases hm : mkPeriod (natOfDigits ys) m 1 with
    | none => rw [hm] at h; simp at h
    | some q =>
      rw [hm] at h
      simp only [DateResult.period.injEq] at h
      subst h
      exact ⟨(mkPeriod_month _ _ _ _ hm).1, (mkPeriod_month _ _ _ _ hm).2.1⟩
  · simp at h

/-- Every period the Date Resolver returns has its month in range 1–12. -/
lemma resolveChars_month (cs : List Char) (p : Period)
    (h : resolveChars cs = .period p) : 1 ≤ p.month ∧ p.month ≤ 12 := by
  unfold resolveChars at h
  repeat' split at h
  all_goals first
    | exact ofGeneric_month _ _ h
    | exact timestampYM_month _ _ _ h

/-- Month range for the string-level resolver. -/
lemma resolveStr_month (s : String) (p : Period)
    (h : resolveStr s = .period p) : 1 ≤ p.month ∧ p.month ≤ 12 :=
  resolveChars_month _ _ h

/-- Zero-filled months in range 1–12 render as two-digit strings. -/
lemma zfill2_month_len (m : Nat) (h1 : 1 ≤ m) (h2 : m ≤ 12) :
    (zfill2 (toString m)).length = 2 := by
  interval_cases m <;> rfl

/-! ## Claim C1 — Enrichment Merger and duplicate periods -/

/-- C1, counterexample: the Enrichment Merger does NOT validate the
ExchangeRate collection. Given two FX entries for the same period
(2024, 08), `merge_fx_data` raises no validation error: it produces output,
duplicating the single holding record once per duplicate FX entry. -/
theorem C1_counterexample :
    merge_fx_data [⟨"XXI Banorte", "Pensiones", "Total de Activo", "2024", "08", mkRat 100 1⟩]
      [⟨"2024", "08", mkRat 191 10⟩, ⟨"2024", "08", mkRat 192 10⟩]
    = [⟨⟨"XXI Banorte", "Pensiones", "Total de Activo", "2024", "08", mkRat 100 1⟩,
        some (mkRat 191 10)⟩,
       ⟨⟨"XXI Banorte", "Pensiones", "Total de Activo", "2024", "08", mkRat 100 1⟩,
        some (mkRat 192 10)⟩] := by
  decide

/-- C1, amended: `merge_fx_data` performs no duplicate-period validation and
never fails on FX content; it always produces output, and every holding
record contributes exactly `max 1 k` output rows, where `k` is the number of
FX entries matching its period — so duplicated periods multiply records
instead of raising. (The duplicate-period check lives upstream, in
`BanxicoFXAgent.validate_data`.) -/
theorem C1_amended_thm : ∀ (A : List AforeRow) (F : List FXRow),
    (merge_fx_data A F).length
      = (A.map (fun a => max 1 (F.countP (fun f => fxKeyMatch a f)))).sum := by
  intro A F
  induction A with
  | nil => rfl
  | cons a A ih =>
    have hsplit : merge_fx_data (a :: A) F
        = (if (F.filter (fun f => fxKeyMatch a f)).isEmpty
           then [⟨a, none⟩]
           else (F.filter (fun f => fxKeyMatch a f)).map (fun f => ⟨a, some f.fx⟩))
          ++ merge_fx_data A F := rfl
    rw [hsplit, List.length_append, ih, List.map_cons, List.sum_cons]
    congr 1
    by_cases h : (F.filter (fun f => fxKeyMatch a f)).isEmpty
    · rw [if_pos h]
      have h0 : F.countP (fun f => fxKeyMatch a f) = 0 := by
        rw [List.countP_eq_length_filter]
        simpa [List.isEmpty_iff, List.length_eq_zero] using h
      simp [h0]
    · rw [if_neg h, List.length_map, List.countP_eq_length_filter]
      have h1 : 1 ≤ (F.filter (fun f => fxKeyMatch a f)).length := by
        have : F.filter (fun f => fxKeyMatch a f) ≠ [] := by
          simpa [List.isEmpty_iff] using h
        exact Nat.succ_le_of_lt (List.length_pos.mpr this)
      exact (Nat.max_eq_right h1).symm

/-! ## Claim C3 — Date Resolver totality -/

/-- C3: the Date Resolver is NOT total. The header `"Ene-abcd"` (Spanish month
abbreviation, 4-character non-numeric year part) reaches
`pd.Timestamp("abcd-01-01")`, which raises `ValueError`; the header
`"Ene-9999"` (a 4-digit year outside the `pd.Timestamp` range) raises
`OutOfBoundsDatetime`. Both escape `extract_siefore_data` uncaught. -/
theorem C3_code_eval :
    resolveStr "Ene-abcd" = .pyError ∧ resolveStr "Ene-9999" = .pyError :=
  ⟨by decide, by decide⟩

/-! ## Claim C5 — generic date parse precedence -/

/-- C5: the generic date parse of the Date Resolver in `cleanup_afore_json.py`
uses pandas' default `dayfirst=False`, so the ambiguous numeric string
`"05/03/2024"` resolves month-first to period (2024, 5), not day-first to
(2024, 3) as the claim states. -/
theorem C5_code_eval :
    resolveStr "05/03/2024" = .period ⟨2024, 5⟩
    ∧ resolveStr "05/03/2024" ≠ .period ⟨2024, 3⟩
    ∧ genericParse "05/03/2024" = some ⟨2024, 5⟩ :=
  ⟨by decide, by decide, by decide⟩

/-! ## Claim C6 — Value Normalizer -/

/-- C6, counterexample: `"NaN"` is a casing variant of the placeholder token
`"nan"`, yet it does not normalize to 0: the case-sensitive membership test
misses it and Python `float("NaN")` succeeds with `nan`, so the normalized
amount is `nan`, not 0. -/
theorem C6_counterexample :
    toLowerChars "NaN".data = toLowerChars "nan".data
    ∧ "nan" ∈ placeholderTokens
    ∧ normalizeStr "NaN" = .nan
    ∧ normalizeStr "NaN" ≠ .num 0 :=
  ⟨by decide, by decide, by decide, by decide⟩

/-- C6, amended: after comma-removal and stripping, an exact placeholder token
normalizes to exactly 0; any non-placeholder that `float` cannot parse also
normalizes to 0 without raising; `"1,234.5"` scales to 1234500; but the casing
variant `"NaN"` of the `"nan"` placeholder parses as the float `nan` and
yields a `nan` amount instead of 0 (placeholder matching is case-sensitive). -/
theorem C6_amended_thm :
    (∀ s : String, cleanVal s ∈ placeholderTokens → normalizeStr s = .num 0)
    ∧ (∀ s : String, cleanVal s ∉ placeholderTokens → pyFloat (cleanVal s) = none →
        normalizeStr s = .num 0)
    ∧ normalizeStr "1,234.5" = .num 1234500
    ∧ normalizeStr "NaN" = .nan := by
  refine ⟨?_, ?_, by with_unfolding_all rfl, by decide⟩
  · intro s h
    simp [normalizeStr, h]
  · intro s h1 h2
    simp [normalizeStr, h1, h2]

/-- C6, witness: the amended theorem applied at the padded placeholder
`" N/A "` and at the unparseable cell `"abc"`. -/
theorem C6_witness :
    normalizeStr " N/A " = .num 0 ∧ normalizeStr "abc" = .num 0 :=
  ⟨C6_amended_thm.1 " N/A " (by decide), C6_amended_thm.2.1 "abc" (by decide) (by decide)⟩

/-! ## Claim C2 — left join shape under unique FX periods -/

/-- The join condition holds iff the period strings agree. -/
lemma fxKeyMatch_iff (a : AforeRow) (f : FXRow) :
    fxKeyMatch a f = true ↔ f.periodYear = a.periodYear ∧ f.periodMonth = a.periodMonth := by
  simp [fxKeyMatch]

/-- With pairwise-distinct FX periods, at most one FX row matches a holding:
the filter collapses to the first match. -/
lemma filter_eq_find_of_nodup (F : List FXRow) (a : AforeRow)
    (hU : (F.map (fun f => (f.periodYear, f.periodMonth))).Nodup) :
    F.filter (fun f => fxKeyMatch a f)
      = (match F.find? (fun f => fxKeyMatch a f) with
         | some f => [f]
         | none => []) := by
  induction F with
  | nil => rfl
  | cons f F ih =>
    rw [List.map_cons, List.nodup_cons] at hU
    obtain ⟨hnot, hU2⟩ := hU
    by_cases hf : fxKeyMatch a f = true
    · rw [List.filter_cons_of_pos hf, List.find?_cons_of_pos _ hf]
      have hnil : F.filter (fun g => fxKeyMatch a g) = [] := by
        rw [List.filter_eq_nil_iff]
        intro g hg hmatch
        apply hnot
        have h1 := (fxKeyMatch_iff a f).mp hf
        have h2 := (fxKeyMatch_iff a g).mp hmatch
        refine List.mem_map.mpr ⟨g, hg, ?_⟩
        rw [h2.1, h2.2, h1.1, h1.2]
      rw [hnil]
    · rw [List.filter_cons_of_neg (by simpa using hf), List.find?_cons_of_neg _ (by simpa using hf)]
      exact ih hU2

/-- With pairwise-distinct FX periods, the left merge is a per-row lookup. -/
lemma merge_eq_map_of_nodup (A : List AforeRow) (F : List FXRow)
    (hU : (F.map (fun f => (f.periodYear, f.periodMonth))).Nodup) :
    merge_fx_data A F
      = A.map (fun a =>
          match F.find? (fun f => fxKeyMatch a f) with
          | some f => MergedRow.mk a (some f.fx)
          | none => MergedRow.mk a none) := by
  induction A with
  | nil => rfl
  | cons a A ih =>
    have hsplit : merge_fx_data (a :: A) F
        = (if (F.filter (fun f => fxKeyMatch a f)).isEmpty
           then [⟨a, none⟩]
           else (F.filter (fun f => fxKeyMatch a f)).map (fun f => ⟨a, some f.fx⟩))
          ++ merge_fx_data A F := rfl
    rw [hsplit, ih, List.map_cons, filter_eq_find_of_nodup F a hU]
    cases hfind : F.find? (fun f => fxKeyMatch a f) with
    | none => simp
    | some f => simp

/-- C2: for every holding collection and every FX collection with at most one
entry per (PeriodYear, PeriodMonth), the Enrichment Merger emits exactly one
enriched record per input holding, in order: a matched record carries
`valueUSD = valueMXN / FX_EOM`, an unmatched record carries neither rate nor
USD value. -/
theorem C2_thm (A : List AforeRow) (F : List FXRow)
    (hU : (F.map (fun f => (f.periodYear, f.periodMonth))).Nodup) :
    (enrich A F).length = A.length
    ∧ enrich A F
        = A.map (fun a =>
            match F.find? (fun f => fxKeyMatch a f) with
            | some f => EnrichedRow.mk a (some f.fx) (some (a.valueMXN / f.fx))
            | none => EnrichedRow.mk a none none) := by
  have hm := merge_eq_map_of_nodup A F hU
  have heq : enrich A F
      = A.map (fun a =>
          match F.find? (fun f => fxKeyMatch a f) with
          | some f => EnrichedRow.mk a (some f.fx) (some (a.valueMXN / f.fx))
          | none => EnrichedRow.mk a none none) := by
    unfold enrich calculate_usd_values
    rw [hm, List.map_map]
    apply List.map_congr_left
    intro a _
    cases hfind : F.find? (fun f => fxKeyMatch a f) with
    | none => simp [hfind]
    | some f => simp [hfind]
  exact ⟨by rw [heq, List.length_map], heq⟩

/-- C2, witness: the theorem applied to two holdings (one matched period, one
missing period) and a singleton FX collection. -/
theorem C2_witness :
    (enrich
       [⟨"XXI Banorte", "Pensiones", "Total de Activo", "2024", "08", mkRat 100 1⟩,
        ⟨"SURA", "Pensiones", "Total de Activo", "2024", "09", mkRat 200 1⟩]
       [⟨"2024", "08", mkRat 20 1⟩]).length = 2 :=
  (C2_thm _ _ (by decide)).1

/-! ## Claim C7 — Concept Locator first match / not-found skip -/

/-- C7: the Concept Locator returns the index of the first row whose label
column matches the search term case-insensitively — every earlier row does not
match (even when later rows also match) — and the not-found signal exactly
when no row matches; a not-found concept contributes zero records and the
remaining concepts are still processed. -/
theorem C7_thm :
    (∀ (rows : List (List Cell)) (search : String) (i : Nat),
        findRow rows search = some i →
          ∃ r, rows[i]? = some r ∧ rowMatches r search = true
            ∧ ∀ j r2, j < i → rows[j]? = some r2 → rowMatches r2 search = false)
    ∧ (∀ (rows : List (List Cell)) (search : String),
        findRow rows search = none ↔ ∀ r ∈ rows, rowMatches r search = false)
    ∧ (∀ (s : Sheet) (sief conc : String),
        findRow s.rows (conceptSearch conc) = none → conceptRecords s sief conc = .ok [])
    ∧ (∀ (s : Sheet) (sief conc : String) (rest : List String),
        findRow s.rows (conceptSearch conc) = none →
          processConcepts s sief (conc :: rest) = processConcepts s sief rest) := by
  refine ⟨?_, ?_, ?_, ?_⟩
  · intro rows search i h
    rw [findRow, List.findIdx?_eq_some_iff_getElem] at h
    obtain ⟨hlt, hp, hall⟩ := h
    refine ⟨rows[i], List.getElem?_eq_getElem hlt, hp, ?_⟩
    intro j r2 hj hr2
    have hjlt : j < rows.length := Nat.lt_trans hj hlt
    rw [List.getElem?_eq_getElem hjlt, Option.some.injEq] at hr2
    subst hr2
    simpa using hall j hj
  · intro rows search
    simp [findRow, List.findIdx?_eq_none_iff]
  · intro s sief conc h
    simp [conceptRecords, h]
  · intro s sief conc rest h
    cases hr : processConcepts s sief rest with
    | error e => simp [processConcepts, conceptRecords, h, hr]
    | ok rs => simp [processConcepts, conceptRecords, h, hr]

/-- C7, witness: the first-match conjunct applied to a synthetic 20-row sheet
with a planted duplicate label (rows 7 and 13 both contain the concept label,
row 7 only in lower case): the locator reports index 7. -/
theorem C7_witness :
    ∃ r,
      (List.replicate 7 [Cell.nan, Cell.str "otro concepto"]
        ++ [[Cell.nan, Cell.str "total de activo neto"]]
        ++ List.replicate 5 [Cell.nan, Cell.str "una afore"]
        ++ [[Cell.nan, Cell.str "Total de Activo"]]
        ++ List.replicate 6 [Cell.nan, Cell.str "relleno"])[7]? = some r
      ∧ rowMatches r "Total de Activo" = true
      ∧ ∀ j r2, j < 7 →
          (List.replicate 7 [Cell.nan, Cell.str "otro concepto"]
            ++ [[Cell.nan, Cell.str "total de activo neto"]]
            ++ List.replicate 5 [Cell.nan, Cell.str "una afore"]
            ++ [[Cell.nan, Cell.str "Total de Activo"]]
            ++ List.replicate 6 [Cell.nan, Cell.str "relleno"])[j]? = some r2 →
          rowMatches r2 "Total de Activo" = false :=
  C7_thm.1 _ "Total de Activo" 7 (by decide)

/-! ## Claim C8 — Orchestrator summary statuses -/

/-- The orchestrator loop produces one aligned summary entry per mapping
entry whenever it completes. -/
lemma processReportList_summary (env : Nat → FileState) :
    ∀ (L : List (Nat × String)) (su : List SummaryEntry) (recs : List XRecord),
      processReportList env L = .ok (su, recs) →
      List.Forall₂ (reportEntryOK env) L su := by
  intro L
  induction L with
  | nil =>
    intro su recs h
    simp only [processReportList, Except.ok.injEq, Prod.mk.injEq] at h
    obtain ⟨h1, _⟩ := h
    subst h1
    exact List.Forall₂.nil
  | cons pr L ih =>
    intro su recs h
    obtain ⟨n, sief⟩ := pr
    cases henv : env n with
    | missing =>
      simp only [processReportList, henv] at h
      cases hrest : processReportList env L with
      | error e => simp only [hrest] at h; exact absurd h (by simp)
      | ok p =>
        obtain ⟨su2, recs2⟩ := p
        simp only [hrest, Except.ok.injEq, Prod.mk.injEq] at h
        obtain ⟨h1, _⟩ := h
        subst h1
        refine List.Forall₂.cons ?_ (ih su2 recs2 hrest)
        refine ⟨rfl, rfl, Or.inr rfl, fun _ => ⟨rfl, rfl⟩, fun hc => ?_⟩
        rw [henv] at hc
        exact absurd hc (by simp)
    | present r =>
      cases r with
      | error e =>
        simp only [processReportList, henv] at h
        cases hrest : processReportList env L with
        | error e2 => simp only [hrest] at h; exact absurd h (by simp)
        | ok p =>
          obtain ⟨su2, recs2⟩ := p
          simp only [hrest, Except.ok.injEq, Prod.mk.injEq] at h
          obtain ⟨h1, _⟩ := h
          subst h1
          refine List.Forall₂.cons ?_ (ih su2 recs2 hrest)
          refine ⟨rfl, rfl, Or.inl rfl, fun hc => ?_, fun _ => ⟨rfl, rfl⟩⟩
          rw [henv] at hc
          exact absurd hc (by simp)
      | ok sheet =>
        simp only [processReportList, henv] at h
        cases hx : extractSiefore sheet sief with
        | error e => simp only [hx] at h; exact absurd h (by simp)
        | ok mine =>
          simp only [hx] at h
          cases hrest : processReportList env L with
          | error e2 => simp only [hrest] at h; exact absurd h (by simp)
          | ok p =>
            obtain ⟨su2, recs2⟩ := p
            simp only [hrest, Except.ok.injEq, Prod.mk.injEq] at h
            obtain ⟨h1, _⟩ := h
            subst h1
            refine List.Forall₂.cons ?_ (ih su2 recs2 hrest)
            refine ⟨rfl, rfl, Or.inl rfl, fun hc => ?_, fun hc => ?_⟩
            · rw [henv] at hc; exact absurd hc (by simp)
            · rw [henv] at hc
              simp only [FileState.present.injEq] at hc
              exact absurd hc (by simp)

/-- C8, counterexample: with report 16 present but unreadable and the rest
missing, the batch completes and report 16 is recorded `"Success"` with zero
records — no `"ReadError"` status exists anywhere in the code. -/
theorem C8_counterexample :
    runPipeline env0
      = .ok ([⟨16, "Pensiones", "Success", 0⟩,
              ⟨17, "Inicial", "File Not Found", 0⟩,
              ⟨18, "55-59", "File Not Found", 0⟩,
              ⟨19, "60-64", "File Not Found", 0⟩,
              ⟨20, "65-69", "File Not Found", 0⟩,
              ⟨21, "70-74", "File Not Found", 0⟩,
              ⟨22, "75-79", "File Not Found", 0⟩,
              ⟨23, "80-84", "File Not Found", 0⟩,
              ⟨24, "85-89", "File Not Found", 0⟩,
              ⟨25, "90-94", "File Not Found", 0⟩,
              ⟨26, "95-99", "File Not Found", 0⟩], []) := by
  rfl

/-- C8, amended: whenever the batch completes (no uncaught extraction
exception), every report of the fixed mapping gets exactly one summary entry,
aligned and in order; statuses are only `"Success"` or `"File Not Found"`; a
missing file is recorded `"File Not Found"` with zero records and processing
continues; a present-but-unreadable file is recorded `"Success"` with zero
records (there is no `"ReadError"` status). -/
theorem C8_amended_thm (env : Nat → FileState) (su : List SummaryEntry) (recs : List XRecord)
    (h : runPipeline env = .ok (su, recs)) :
    List.Forall₂ (reportEntryOK env) SIEFORE_MAP su :=
  processReportList_summary env SIEFORE_MAP su recs h

/-- C8, witness: the amended theorem applied to the concrete environment
`env0` (report 16 unreadable, all others missing). -/
theorem C8_witness :
    List.Forall₂ (reportEntryOK env0) SIEFORE_MAP
      [⟨16, "Pensiones", "Success", 0⟩,
       ⟨17, "Inicial", "File Not Found", 0⟩,
       ⟨18, "55-59", "File Not Found", 0⟩,
       ⟨19, "60-64", "File Not Found", 0⟩,
       ⟨20, "65-69", "File Not Found", 0⟩,
       ⟨21, "70-74", "File Not Found", 0⟩,
       ⟨22, "75-79", "File Not Found", 0⟩,
       ⟨23, "80-84", "File Not Found", 0⟩,
       ⟨24, "85-89", "File Not Found", 0⟩,
       ⟨25, "90-94", "File Not Found", 0⟩,
       ⟨26, "95-99", "File Not Found", 0⟩] :=
  C8_amended_thm env0 _ [] (by rfl)

/-! ## Claim C9 — Block Extractor record invariants -/

/-- Every record an inner pair-loop emits comes from a resolved header and
carries the row's processed label. -/
lemma processPairs_ok_mem (lab : Option String) (sief conc : String) :
    ∀ (prs : List (String × Cell)) (rs : List XRecord) (r : XRecord),
      processPairs lab sief conc prs = .ok rs → r ∈ rs →
      ∃ h c p, (h, c) ∈ prs ∧ resolveStr h = .period p ∧ r = mkXRecord lab sief conc p c := by
  intro prs
  induction prs with
  | nil =>
    intro rs r hok hr
    simp only [processPairs, Except.ok.injEq] at hok
    subst hok
    exact absurd hr (by simp)
  | cons pc rest ih =>
    intro rs r hok hr
    obtain ⟨h0, c0⟩ := pc
    simp only [processPairs] at hok
    cases hres : resolveStr h0 with
    | pyError => simp only [hres] at hok; exact absurd hok (by simp)
    | notDate =>
      simp only [hres] at hok
      obtain ⟨h1, c1, p1, hmem, hres1, hrec⟩ := ih rs r hok hr
      exact ⟨h1, c1, p1, List.mem_cons_of_mem _ hmem, hres1, hrec⟩
    | period p =>
      simp only [hres] at hok
      cases hrest : processPairs lab sief conc rest with
      | error e => simp only [hrest] at hok; exact absurd hok (by simp)
      | ok rs2 =>
        simp only [hrest, Except.ok.injEq] at hok
        subst hok
        rcases List.mem_cons.mp hr with he | hm
        · exact ⟨h0, c0, p, List.mem_cons_self _ _, hres, he⟩
        · obtain ⟨h1, c1, p1, hmem, hres1, hrec⟩ := ih rs2 r hrest hm
          exact ⟨h1, c1, p1, List.mem_cons_of_mem _ hmem, hres1, hrec⟩

/-- Records of one entity row: the label must have passed the skip check. -/
lemma entityRow_ok_mem (hs : List String) (sief conc : String) (row : List Cell)
    (rs : List XRecord) (r : XRecord)
    (hok : entityRow hs sief conc row = .ok rs) (hr : r ∈ rs) :
    labelSkip (labelOf (cellAt row 1)) = false
    ∧ ∃ h c p, resolveStr h = .period p
        ∧ r = mkXRecord (labelOf (cellAt row 1)) sief conc p c := by
  unfold entityRow at hok
  split at hok
  · simp only [Except.ok.injEq] at hok
    subst hok
    exact absurd hr (by simp)
  · rename_i hskip
    obtain ⟨h, c, p, _, hres, hrec⟩ := processPairs_ok_mem _ _ _ _ _ _ hok hr
    exact ⟨by simpa using hskip, h, c, p, hres, hrec⟩

/-- Records of a block trace back to one of its entity rows. -/
lemma processRows_ok_mem (hs : List String) (sief conc : String) :
    ∀ (rows : List (List Cell)) (rs : List XRecord) (r : XRecord),
      processRows hs sief conc rows = .ok rs → r ∈ rs →
      ∃ row, row ∈ rows ∧ ∃ rs2, entityRow hs sief conc row = .ok rs2 ∧ r ∈ rs2 := by
  intro rows
  induction rows with
  | nil =>
    intro rs r hok hr
    simp only [processRows, Except.ok.injEq] at hok
    subst hok
    exact absurd hr (by simp)
  | cons row rows ih =>
    intro rs r hok hr
    simp only [processRows] at hok
    cases h1 : entityRow hs sief conc row with
    | error e => simp only [h1] at hok; exact absurd hok (by simp)
    | ok rs1 =>
      simp only [h1] at hok
      cases h2 : processRows hs sief conc rows with
      | error e => simp only [h2] at hok; exact absurd hok (by simp)
      | ok rs2 =>
        simp only [h2, Except.ok.injEq] at hok
        subst hok
        rcases List.mem_append.mp hr with hm | hm
        · exact ⟨row, List.mem_cons_self _ _, rs1, h1, hm⟩
        · obtain ⟨row2, hrow2, rs3, h3, hm3⟩ := ih rs2 r h2 hm
          exact ⟨row2, List.mem_cons_of_mem _ hrow2, rs3, h3, hm3⟩

/-- Records of one located concept trace back to an entity row of its block. -/
lemma conceptRecords_ok_mem (s : Sheet) (sief conc : String) (rs : List XRecord) (r : XRecord)
    (hok : conceptRecords s sief conc = .ok rs) (hr : r ∈ rs) :
    ∃ row rs2, entityRow s.headers sief conc row = .ok rs2 ∧ r ∈ rs2 := by
  unfold conceptRecords at hok
  cases hf : findRow s.rows (conceptSearch conc) with
  | none =>
    simp only [hf, Except.ok.injEq] at hok
    subst hok
    exact absurd hr (by simp)
  | some i =>
    simp only [hf] at hok
    unfold blockRecords at hok
    obtain ⟨row, _, rs2, h2, hm⟩ := processRows_ok_mem _ _ _ _ _ _ hok hr
    exact ⟨row, rs2, h2, hm⟩

/-- Records of a whole sheet extraction trace back to some concept. -/
lemma processConcepts_ok_mem (s : Sheet) (sief : String) :
    ∀ (cs : List String) (rs : List XRecord) (r : XRecord),
      processConcepts s sief cs = .ok rs → r ∈ rs →
      ∃ conc, conc ∈ cs ∧ ∃ rs2, conceptRecords s sief conc = .ok rs2 ∧ r ∈ rs2 := by
  intro cs
  induction cs with
  | nil =>
    intro rs r hok hr
    simp only [processConcepts, Except.ok.injEq] at hok
    subst hok
    exact absurd hr (by simp)
  | cons c cs ih =>
    intro rs r hok hr
    simp only [processConcepts] at hok
    cases h1 : conceptRecords s sief c with
    | error e => simp only [h1] at hok; exact absurd hok (by simp)
    | ok rs1 =>
      simp only [h1] at hok
      cases h2 : processConcepts s sief cs with
      | error e => simp only [h2] at hok; exact absurd hok (by simp)
      | ok rs2 =>
        simp only [h2, Except.ok.injEq] at hok
        subst hok
        rcases List.mem_append.mp hr with hm | hm
        · exact ⟨c, List.mem_cons_self _ _, rs1, h1, hm⟩
        · obtain ⟨c2, hc2, rs3, h3, hm3⟩ := ih rs2 r h2 hm
          exact ⟨c2, List.mem_cons_of_mem _ hc2, rs3, h3, hm3⟩

/-- C9, counterexample: an entity row whose label cell is NUMERIC is not
skipped — `fillna("").str.strip()` turns the non-string into `NaN`, which is
truthy and not equal to `"nan"` — so the Block Extractor emits a record whose
entity label is `NaN`, not a non-empty trimmed string. -/
theorem C9_counterexample :
    extractSiefore
      ⟨["c0", "c1", "c2", "c3", "Ago-2025"],
       [[Cell.nan, Cell.str "Total de Activo", Cell.nan, Cell.nan, Cell.nan],
        [Cell.nan, Cell.num (mkRat 5 1), Cell.nan, Cell.nan, Cell.nan]]⟩
      "Pensiones"
    = .ok [⟨none, "Pensiones", "Total de Activo", "2025", "08", .num 0⟩] := by
  rfl

/-- C9, amended: every emitted record has either a `NaN` entity label (from a
non-string label cell) or a non-empty, non-null-marker, trimmed one; rows with
a blank or null-marker label produce zero records; and the month field is a
zero-padded two-digit rendering of a month 1–12. -/
theorem C9_amended_thm :
    (∀ (s : Sheet) (sief : String) (rs : List XRecord) (r : XRecord),
        extractSiefore s sief = .ok rs → r ∈ rs →
          (r.afore = none
            ∨ ∃ lab, r.afore = some lab ∧ lab ≠ "" ∧ lab ≠ "nan" ∧ pyStrip lab = lab)
          ∧ r.periodMonth.length = 2
          ∧ ∃ m, 1 ≤ m ∧ m ≤ 12 ∧ r.periodMonth = zfill2 (toString m))
    ∧ (∀ (hs : List String) (sief conc : String) (row : List Cell),
        labelSkip (labelOf (cellAt row 1)) = true →
          entityRow hs sief conc row = .ok []) := by
  constructor
  · intro s sief rs r hok hr
    obtain ⟨conc, _, rs2, hcr, hm2⟩ := processConcepts_ok_mem s sief CONCEPTS rs r hok hr
    obtain ⟨row, rs3, her, hm3⟩ := conceptRecords_ok_mem s sief conc rs2 r hcr hm2
    obtain ⟨hskip, h, c, p, hres, hrec⟩ := entityRow_ok_mem _ _ _ _ _ _ her hm3
    have hmonth := resolveStr_month h p hres
    subst hrec
    refine ⟨?_, zfill2_month_len p.month hmonth.1 hmonth.2,
            p.month, hmonth.1, hmonth.2, rfl⟩
    cases hcell : cellAt row 1 with
    | num q => exact Or.inl (by simp [mkXRecord, labelOf, hcell])
    | nan =>
      rw [hcell] at hskip
      simp [labelOf, labelSkip] at hskip
    | str t =>
      rw [hcell] at hskip
      simp only [labelOf, labelSkip, Bool.or_eq_false_iff, beq_eq_false_iff_ne] at hskip
      exact Or.inr ⟨pyStrip t, by simp [mkXRecord, labelOf, hcell],
        hskip.1, hskip.2, pyStrip_idem t⟩
  · intro hs sief conc row hskip
    unfold entityRow
    rw [if_pos hskip]

/-- C9, witness: the amended theorem applied to the numeric-label sheet of the
counterexample and its single emitted record. -/
theorem C9_witness :
    ((⟨none, "Pensiones", "Total de Activo", "2025", "08", MVal.num 0⟩ : XRecord).afore = none
      ∨ ∃ lab, (⟨none, "Pensiones", "Total de Activo", "2025", "08", MVal.num 0⟩ : XRecord).afore
            = some lab ∧ lab ≠ "" ∧ lab ≠ "nan" ∧ pyStrip lab = lab)
    ∧ (⟨none, "Pensiones", "Total de Activo", "2025", "08", MVal.num 0⟩ : XRecord).periodMonth.length = 2
    ∧ ∃ m, 1 ≤ m ∧ m ≤ 12
        ∧ (⟨none, "Pensiones", "Total de Activo", "2025", "08", MVal.num 0⟩ : XRecord).periodMonth
          = zfill2 (toString m) :=
  C9_amended_thm.1
    ⟨["c0", "c1", "c2", "c3", "Ago-2025"],
     [[Cell.nan, Cell.str "Total de Activo", Cell.nan, Cell.nan, Cell.nan],
      [Cell.nan, Cell.num (mkRat 5 1), Cell.nan, Cell.nan, Cell.nan]]⟩
    "Pensiones"
    [⟨none, "Pensiones", "Total de Activo", "2025", "08", MVal.num 0⟩]
    ⟨none, "Pensiones", "Total de Activo", "2025", "08", MVal.num 0⟩
    (by rfl) (by simp)

/-! ## Claim C4 — localized abbreviation branch and resolution order -/

/-- Splitting a separator-free list yields one group. -/
lemma splitOnPred_no (p : Char → Bool) (l : List Char) (h : ∀ c ∈ l, p c = false) :
    splitOnPred p l = [l] := by
  induction l with
  | nil => rfl
  | cons c rest ih =>
    have hc : p c = false := h c (List.mem_cons_self _ _)
    have ih2 := ih (fun d hd => h d (List.mem_cons_of_mem _ hd))
    simp only [splitOnPred]
    rw [if_neg (by simp [hc]), ih2]

/-- Splitting at the first separator peels off the leading group. -/
lemma splitOnPred_sep (p : Char → Bool) (xs ys : List Char) (c0 : Char)
    (hxs : ∀ c ∈ xs, p c = false) (hc : p c0 = true) :
    splitOnPred p (xs ++ c0 :: ys) = xs :: splitOnPred p ys := by
  induction xs with
  | nil =>
    simp only [List.nil_append, splitOnPred]
    rw [if_pos hc]
  | cons a xs ih =>
    have ha : p a = false := hxs a (List.mem_cons_self _ _)
    have ih2 : splitOnPred p (xs.append (c0 :: ys)) = xs :: splitOnPred p ys :=
      ih (fun d hd => hxs d (List.mem_cons_of_mem _ hd))
    simp only [List.cons_append, splitOnPred]
    rw [if_neg (by simp [ha]), ih2]

/-- A string with exactly one separator splits into its two parts. -/
lemma splitOnChar_two (c0 : Char) (xs ys : List Char)
    (hxs : ∀ c ∈ xs, (c == c0) = false) (hys : ∀ c ∈ ys, (c == c0) = false) :
    splitOnChar c0 (xs ++ c0 :: ys) = [xs, ys] := by
  unfold splitOnChar
  rw [splitOnPred_sep _ _ _ _ hxs (by simp), splitOnPred_no _ _ hys]

/-- C4, counterexample: `"Ene-abcd"` has its left part in the month table and
a 4-character right part that is not a year. The claim says every 2-part
hyphenated string other than a valid abbreviation falls through to the
generic parse (which would coerce it to the sentinel); instead the code
raises from `pd.Timestamp("abcd-01-01")`. -/
theorem C4_counterexample :
    resolveStr "Ene-abcd" = .pyError
    ∧ ofGeneric (genericParse "Ene-abcd") = .notDate
    ∧ resolveStr "Ene-abcd" ≠ ofGeneric (genericParse "Ene-abcd") :=
  ⟨by decide, by decide, by decide⟩

/-- C4, amended: resolution is attempted in this order — (i) a structured
`pd.Timestamp` header is used directly; (ii) a 2-part hyphen split whose left
part is in the Spanish table and whose right part is a 4-digit year with the
1st of that month representable as a `pd.Timestamp` resolves to exactly that
(year, month); (iii) with a table left part and a 4-character right part that
is not such a year, the resolver raises instead of falling through; (iv) a
2-part split whose left part is not in the table or whose right part does not
have exactly 4 characters falls through to the generic parse; (v) any header
that does not split into exactly two parts falls through to the generic
parse, whose failure yields the sentinel. -/
theorem C4_amended_thm :
    (∀ t : PdTimestamp, resolveCol (.ts t) = .period ⟨t.year, t.month⟩)
    ∧ (∀ (mon : String) (m : Nat) (ys : List Char) (p : Period),
        (mon, m) ∈ spanishMonths →
        digits4 ys = true →
        mkPeriod (natOfDigits ys) m 1 = some p →
        resolveChars (mon.data ++ '-' :: ys) = .period p)
    ∧ (∀ (mon : String) (m : Nat) (ys : List Char),
        (mon, m) ∈ spanishMonths →
        ys.length = 4 →
        (∀ c ∈ ys, (c == '-') = false) →
        (ys.all (fun c => c.isDigit) = false ∨ mkPeriod (natOfDigits ys) m 1 = none) →
        resolveChars (mon.data ++ '-' :: ys) = .pyError)
    ∧ (∀ (cs p0 p1 : List Char),
        splitOnChar '-' cs = [p0, p1] →
        (spanishMonthNum (String.mk p0) = none ∨ p1.length ≠ 4) →
        resolveChars cs = ofGeneric (genericParseChars cs))
    ∧ (∀ cs : List Char,
        (splitOnChar '-' cs).length ≠ 2 →
        resolveChars cs = ofGeneric (genericParseChars cs)) := by
  have hmk : ∀ mon : String, String.mk mon.data = mon := fun _ => rfl
  refine ⟨fun t => rfl, ?_, ?_, ?_, ?_⟩
  · intro mon m ys p hmem hd4 hper
    have hlook : spanishMonthNum mon = some m := by fin_cases hmem <;> rfl
    have hnohy : ∀ c ∈ mon.data, (c == '-') = false := by fin_cases hmem <;> decide
    obtain ⟨hlen, hall⟩ : ys.length = 4 ∧ ys.all (fun c => c.isDigit) = true := by
      simpa [digits4] using hd4
    have hys : ∀ c ∈ ys, (c == '-') = false := by
      intro c hcm
      have hd : c.isDigit = true := by
        rw [List.all_eq_true] at hall
        exact hall c hcm
      cases hceq : (c == '-') with
      | false => rfl
      | true =>
        exfalso
        have hcc : c = '-' := by simpa using hceq
        rw [hcc] at hd
        exact absurd hd (by decide)
    unfold resolveChars
    split
    · rename_i q0 q1 heq
      rw [splitOnChar_two '-' mon.data ys hnohy hys] at heq
      simp only [List.cons.injEq, and_true] at heq
      obtain ⟨h1, h2⟩ := heq
      subst h1
      subst h2
      rw [if_pos (by simp), hmk mon]
      simp only [hlook]
      rw [if_pos hlen]
      unfold timestampYM
      rw [if_pos hall]
      simp only [hper]
    · rename_i hne
      exact absurd (splitOnChar_two '-' mon.data ys hnohy hys) (hne mon.data ys)
  · intro mon m ys hmem hlen hys hbad
    have hlook : spanishMonthNum mon = some m := by fin_cases hmem <;> rfl
    have hnohy : ∀ c ∈ mon.data, (c == '-') = false := by fin_cases hmem <;> decide
    unfold resolveChars
    split
    · rename_i q0 q1 heq
      rw [splitOnChar_two '-' mon.data ys hnohy hys] at heq
      simp only [List.cons.injEq, and_true] at heq
      obtain ⟨h1, h2⟩ := heq
      subst h1
      subst h2
      rw [if_pos (by simp), hmk mon]
      simp only [hlook]
      rw [if_pos hlen]
      unfold timestampYM
      rcases hbad with hb | hb
      · rw [if_neg (by simp [hb])]
      · by_cases hdig : ys.all (fun c => c.isDigit) = true
        · rw [if_pos hdig]
          simp only [hb]
        · rw [if_neg hdig]
    · rename_i hne
      exact absurd (splitOnChar_two '-' mon.data ys hnohy hys) (hne mon.data ys)
  · intro cs p0 p1 hsplit hor
    unfold resolveChars
    split
    · rename_i q0 q1 heq
      rw [hsplit] at heq
      simp only [List.cons.injEq, and_true] at heq
      obtain ⟨h1, h2⟩ := heq
      subst h1
      subst h2
      by_cases hc : cs.contains '-' = true
      · rw [if_pos hc]
        cases hsm : spanishMonthNum (String.mk p0) with
        | none => rfl
        | some m2 =>
          rcases hor with h3 | h3
          · rw [hsm] at h3
            exact absurd h3 (by simp)
          · simp [h3]
      · rw [if_neg hc]
    · rename_i hne
      exact absurd hsplit (hne p0 p1)
  · intro cs hlen
    unfold resolveChars
    split
    · rename_i q0 q1 heq
      exact absurd (by rw [heq]; rfl : (splitOnChar '-' cs).length = 2) hlen
    · rfl

/-- C4, witness: the amended theorem applied at the valid abbreviation
`"Ago-2025"` (conjunct (ii)) and at the non-table 2-part header `"Foo-2024"`
(conjunct (iv), falling through to the generic parse). -/
theorem C4_witness :
    resolveChars ("Ago".data ++ '-' :: "2025".data) = .period ⟨2025, 8⟩
    ∧ resolveChars "Foo-2024".data = ofGeneric (genericParseChars "Foo-2024".data) :=
  ⟨C4_amended_thm.2.1 "Ago" 8 "2025".data ⟨2025, 8⟩ (by decide) (by decide) (by decide),
   C4_amended_thm.2.2.2.1 "Foo-2024".data "Foo".data "2024".data (by decide)
     (Or.inl (by decide))⟩

/-! ## Claim C10 — FX validation and end-of-month selection -/

/-- `keepLastByKey` only keeps rows of the frame. -/
lemma keepLast_subset : ∀ (l : List FXObs) (o : FXObs), o ∈ keepLastByKey l → o ∈ l := by
  intro l
  induction l with
  | nil => intro o ho; simp [keepLastByKey] at ho
  | cons a l ih =>
    intro o ho
    unfold keepLastByKey at ho
    split at ho
    · exact List.mem_cons_of_mem _ (ih o ho)
    · rcases List.mem_cons.mp ho with rfl | hol
      · exact List.mem_cons_self _ _
      · exact List.mem_cons_of_mem _ (ih o hol)

/-- Chronological order is reflexive. -/
lemma dateLE_refl (d : PDate) : dateLE d d = true := by simp [dateLE]

/-- In a chronologically sorted frame, the kept row of each month bounds every
observation of that month from above. -/
lemma keepLast_max : ∀ (l : List FXObs),
    l.Pairwise (fun a b => dateLE a.date b.date = true) →
    ∀ o ∈ keepLastByKey l, ∀ o2 ∈ l,
      fxKey o2.date = fxKey o.date → dateLE o2.date o.date = true := by
  intro l
  induction l with
  | nil => intro _ o ho; simp [keepLastByKey] at ho
  | cons a l ih =>
    intro hsort o ho o2 ho2 hk
    rw [List.pairwise_cons] at hsort
    obtain ⟨ha, hl⟩ := hsort
    unfold keepLastByKey at ho
    split at ho
    · rcases List.mem_cons.mp ho2 with h2a | h2l
      · subst h2a
        exact ha o (keepLast_subset l o ho)
      · exact ih hl o ho o2 h2l hk
    · rename_i hany
      rcases List.mem_cons.mp ho with h1 | hol
      · subst h1
        rcases List.mem_cons.mp ho2 with h2a | h2l
        · subst h2a; exact dateLE_refl _
        · exfalso
          apply hany
          rw [List.any_eq_true]
          exact ⟨o2, h2l, by simp [hk]⟩
      · rcases List.mem_cons.mp ho2 with h2a | h2l
        · exfalso
          apply hany
          subst h2a
          rw [List.any_eq_true]
          exact ⟨o, keepLast_subset l o hol, by rw [hk]; simp⟩
        · exact ih hl o hol o2 h2l hk

/-- Every month present in the frame has a kept representative. -/
lemma keepLast_cover : ∀ (l : List FXObs) (o : FXObs), o ∈ l →
    ∃ r, r ∈ keepLastByKey l ∧ fxKey r.date = fxKey o.date := by
  intro l
  induction l with
  | nil => intro o ho; exact absurd ho (by simp)
  | cons a l ih =>
    intro o ho
    unfold keepLastByKey
    split
    · rename_i hany
      rcases List.mem_cons.mp ho with h1 | hol
      · subst h1
        rw [List.any_eq_true] at hany
        obtain ⟨o2, ho2, hbeq⟩ := hany
        obtain ⟨r, hr, hkr⟩ := ih o2 ho2
        refine ⟨r, hr, ?_⟩
        rw [hkr]
        simpa using hbeq
      · exact ih o hol
    · rcases List.mem_cons.mp ho with h1 | hol
      · subst h1
        exact ⟨o, List.mem_cons_self _ _, rfl⟩
      · obtain ⟨r, hr, hkr⟩ := ih o hol
        exact ⟨r, List.mem_cons_of_mem _ hr, hkr⟩

/-- The kept rows have pairwise-distinct month keys. -/
lemma keepLast_keys_nodup : ∀ l : List FXObs,
    ((keepLastByKey l).map (fun o => fxKey o.date)).Nodup := by
  intro l
  induction l with
  | nil => simp [keepLastByKey]
  | cons a l ih =>
    unfold keepLastByKey
    split
    · exact ih
    · rename_i hany
      simp only [List.map_cons, List.nodup_cons]
      refine ⟨?_, ih⟩
      intro hmem
      apply hany
      rw [List.mem_map] at hmem
      obtain ⟨o, ho, hko⟩ := hmem
      rw [List.any_eq_true]
      exact ⟨o, keepLast_subset l o ho, by simp [hko]⟩

/-- Chronological order is transitive (as used by the sort). -/
lemma dateLE_trans : ∀ a b c : FXObs,
    dateLE a.date b.date → dateLE b.date c.date → dateLE a.date c.date := by
  intro a b c h1 h2
  simp only [dateLE, decide_eq_true_eq] at h1 h2 ⊢
  omega

/-- Chronological order is total (as used by the sort). -/
lemma dateLE_total : ∀ a b : FXObs, dateLE a.date b.date || dateLE b.date a.date := by
  intro a b
  simp only [dateLE, Bool.or_eq_true, decide_eq_true_eq]
  omega

/-- `df.duplicated(...).any()` is false exactly when keys are pairwise
distinct. -/
lemma hasDupKeys_eq_false_iff : ∀ l : List (String × String),
    hasDupKeys l = false ↔ l.Nodup := by
  intro l
  induction l with
  | nil => simp [hasDupKeys]
  | cons k rest ih =>
    simp [hasDupKeys, ih, List.nodup_cons]

/-- C10: `validate_data` accepts exactly when the processed series has the
required columns, no null rate, all rates in [1, 30] and pairwise-distinct
periods (raising a `ValueError` otherwise); and every rate `process_data`
emits for a month is the value of an observation of that month whose date is
maximal — the chronologically last valid observation — with one output row
per month present and no duplicated output period. -/
theorem C10_thm :
    (∀ f : FXFrame,
        validate_data f = .ok ()
          ↔ (∀ c ∈ requiredFXCols, c ∈ f.cols)
            ∧ (∀ r ∈ f.rows, r.fx ≠ none)
            ∧ (∀ r ∈ f.rows, ∀ q : ℚ, r.fx = some q → 1 ≤ q ∧ q ≤ 30)
            ∧ (f.rows.map (fun r => (r.periodYear, r.periodMonth))).Nodup)
    ∧ (∀ (rows : List BanxicoRaw) (r : FXRow), r ∈ process_data rows →
        ∃ o, o ∈ validObs rows
          ∧ fxKey o.date = (r.periodYear, r.periodMonth)
          ∧ o.q = r.fx
          ∧ ∀ o2 ∈ validObs rows, fxKey o2.date = fxKey o.date →
              dateLE o2.date o.date = true)
    ∧ (∀ (rows : List BanxicoRaw) (o : FXObs), o ∈ validObs rows →
        ∃ r, r ∈ process_data rows ∧ (r.periodYear, r.periodMonth) = fxKey o.date)
    ∧ (∀ rows : List BanxicoRaw,
        ((process_data rows).map (fun r => (r.periodYear, r.periodMonth))).Nodup) := by
  refine ⟨?_, ?_, ?_, ?_⟩
  · intro f
    unfold validate_data
    split_ifs with h1 h2 h3 h4
    · refine iff_of_false id ?_
      intro hr
      rw [List.any_eq_true] at h2
      obtain ⟨r, hrm, hno⟩ := h2
      exact hr.2.1 r hrm (by simpa using hno)
    · refine iff_of_false id ?_
      intro hr
      rw [Bool.or_eq_true] at h3
      rcases h3 with hlow | hhigh
      · rw [List.any_eq_true] at hlow
        obtain ⟨q, hq, hlt⟩ := hlow
        rw [List.mem_filterMap] at hq
        obtain ⟨r, hrm, hfx⟩ := hq
        exact absurd (hr.2.2.1 r hrm q hfx).1 (not_le.mpr (by simpa using hlt))
      · rw [List.any_eq_true] at hhigh
        obtain ⟨q, hq, hlt⟩ := hhigh
        rw [List.mem_filterMap] at hq
        obtain ⟨r, hrm, hfx⟩ := hq
        exact absurd (hr.2.2.1 r hrm q hfx).2 (not_le.mpr (by simpa using hlt))
    · refine iff_of_false id ?_
      intro hr
      have hnd := (hasDupKeys_eq_false_iff _).mpr hr.2.2.2
      rw [h4] at hnd
      exact absurd hnd (by simp)
    · refine iff_of_true rfl ⟨?_, ?_, ?_, ?_⟩
      · intro c hc
        rw [List.all_eq_true] at h1
        simpa using h1 c hc
      · intro r hrm hcon
        apply h2
        rw [List.any_eq_true]
        exact ⟨r, hrm, by simp [hcon]⟩
      · intro r hrm q hfx
        simp only [Bool.or_eq_true, not_or] at h3
        constructor
        · by_contra hlt
          apply h3.1
          rw [List.any_eq_true]
          refine ⟨q, List.mem_filterMap.mpr ⟨r, hrm, hfx⟩, by simpa using not_le.mp hlt⟩
        · by_contra hlt
          apply h3.2
          rw [List.any_eq_true]
          refine ⟨q, List.mem_filterMap.mpr ⟨r, hrm, hfx⟩, by simpa using not_le.mp hlt⟩
      · exact (hasDupKeys_eq_false_iff _).mp (by simpa using h4)
    · refine iff_of_false id ?_
      intro hr
      apply h1
      rw [List.all_eq_true]
      intro c hc
      simpa using hr.1 c hc
  · intro rows r hr
    unfold process_data at hr
    rw [List.mem_mergeSort, List.mem_map] at hr
    obtain ⟨o, ho, rfl⟩ := hr
    have hsorted : ((validObs rows).mergeSort (fun a b => dateLE a.date b.date)).Pairwise
        (fun a b => dateLE a.date b.date = true) :=
      List.sorted_mergeSort (fun a b c => dateLE_trans a b c) (fun a b => dateLE_total a b) _
    refine ⟨o, List.mem_mergeSort.mp (keepLast_subset _ o ho), Prod.mk.eta.symm, rfl, ?_⟩
    intro o2 ho2 hk
    exact keepLast_max _ hsorted o ho o2 (List.mem_mergeSort.mpr ho2) hk
  · intro rows o ho
    obtain ⟨r0, hr0, hk⟩ :=
      keepLast_cover ((validObs rows).mergeSort (fun a b => dateLE a.date b.date)) o
        (List.mem_mergeSort.mpr ho)
    refine ⟨⟨(fxKey r0.date).1, (fxKey r0.date).2, r0.q⟩, ?_, ?_⟩
    · unfold process_data
      rw [List.mem_mergeSort, List.mem_map]
      exact ⟨r0, hr0, rfl⟩
    · rw [Prod.mk.eta]
      exact hk
  · intro rows
    unfold process_data
    have hperm :=
      (List.mergeSort_perm
        ((keepLastByKey ((validObs rows).mergeSort (fun a b => dateLE a.date b.date))).map
          (fun o => FXRow.mk (fxKey o.date).1 (fxKey o.date).2 o.q))
        (fun a b => keyLE (a.periodYear, a.periodMonth) (b.periodYear, b.periodMonth))).map
        (fun r : FXRow => (r.periodYear, r.periodMonth))
    rw [hperm.nodup_iff, List.map_map]
    have hfun : ((fun r : FXRow => (r.periodYear, r.periodMonth)) ∘
        (fun o => FXRow.mk (fxKey o.date).1 (fxKey o.date).2 o.q))
        = fun o : FXObs => fxKey o.date := by
      funext o
      simp [Prod.mk.eta]
    rw [hfun]
    exact keepLast_keys_nodup _

/-- C10, witness: the last-observation conjunct applied to a concrete series
with two March observations — the emitted March rate is the later one. -/
theorem C10_witness :
    ∃ o, o ∈ validObs [⟨"15/03/2024", "17.5"⟩, ⟨"29/03/2024", "18.0"⟩]
      ∧ fxKey o.date
          = ((⟨"2024", "03", mkRat 18 1⟩ : FXRow).periodYear,
             (⟨"2024", "03", mkRat 18 1⟩ : FXRow).periodMonth)
      ∧ o.q = (⟨"2024", "03", mkRat 18 1⟩ : FXRow).fx
      ∧ ∀ o2 ∈ validObs [⟨"15/03/2024", "17.5"⟩, ⟨"29/03/2024", "18.0"⟩],
          fxKey o2.date = fxKey o.date → dateLE o2.date o.date = true := by
  have hpd : process_data [⟨"15/03/2024", "17.5"⟩, ⟨"29/03/2024", "18.0"⟩]
      = [⟨"2024", "03", mkRat 18 1⟩] := by
    with_unfolding_all rfl
  exact C10_thm.2.1 [⟨"15/03/2024", "17.5"⟩, ⟨"29/03/2024", "18.0"⟩]
    ⟨"2024", "03", mkRat 18 1⟩ (by rw [hpd]; exact List.mem_singleton.mpr rfl)

end Afore
